import Mathlib

/-!
Shallow embedding of `cargo_mirror.py`, the synchronization core of the
cargo-mirror repository, together with proofs settling the frozen claims
about its specification.

The cache directory is modelled as an association list from filenames to
byte strings; the network is an oracle mapping a crate's (name, vers) to a
fetch outcome; the SHA-256 digest function is an explicit parameter
(`sha : Bytes → Bytes`), since the claims depend only on digest
comparisons, never on properties of the hash itself.
-/

namespace CargoMirror

/-- Byte strings: file contents and binary digests are lists of byte values. -/
abbrev Bytes := List Nat

/-- Lowercase hexadecimal digit for a value below 16, as produced by Python
bytes.hex(). -/
def hexChar (n : Nat) : Char :=
  if n < 10 then Char.ofNat (48 + n) else Char.ofNat (87 + n)

/-- The two lowercase hexadecimal digits of one byte. -/
def byteHex (b : Nat) : String :=
  String.mk [hexChar (b / 16 % 16), hexChar (b % 16)]

/-- Hex encoding of a byte string, as Python bytes.hex() used for the
checksum-mismatch log message in download_crate. -/
def bytesToHex (bs : Bytes) : String :=
  String.join (bs.map byteHex)

/-- CrateVersion (class CrateVersion in cargo_mirror.py): one record of the
index, parsed from one JSON line, with fields name, vers, yanked and the
binary digest cksum. -/
structure CrateVersion where
  name : String
  vers : String
  yanked : Bool
  cksum : Bytes
deriving DecidableEq, Repr

/-- The `name-vers` stem shared by all three on-disk names of a record. -/
def nvKey (c : CrateVersion) : String := c.name ++ "-" ++ c.vers

/-- Canonical committed artifact filename:
`filepath = cache / ('%s-%s.crate' % (name, vers))` in download_crate. -/
def canonName (c : CrateVersion) : String := nvKey c ++ ".crate"

/-- Temporary download filename: `filepath.with_suffix('.crate~')`; since the
canonical name always ends in the suffix `.crate`, this is the stem followed
by `.crate~`. -/
def tmpName (c : CrateVersion) : String := nvKey c ++ ".crate~"

/-- Quarantine filename for a download whose digest did not match:
`filepath.with_suffix('.crate~corrupted')`. -/
def corruptName (c : CrateVersion) : String := nvKey c ++ ".crate~corrupted"

/-- The log messages cargo_mirror.py emits on the module logger, one
constructor per LOGGER call site relevant to the claims. -/
inductive LogEvent where
  | debugSkip (name vers : String)
  | warnInvalidRetry (name vers : String)
  | infoDownloading (name vers : String)
  | infoDownloaded (name vers : String)
  | warnCorrupt (name vers gotHex expectedHex : String)
  | errCannotDownload (name vers : String)
  | errParse (packfile : String)
  | errNoIndex
  | errUnexpected
  | infoCrateCount (n : Nat)
deriving DecidableEq, Repr

/-- The flat cache directory: an association list from filename to file
content.  Earlier entries shadow later ones; all operations keep lookups
consistent with POSIX file semantics. -/
abbrev FS := List (String × Bytes)

/-- Content of the file named `n`, if present. -/
def FS.lookup : FS → String → Option Bytes
  | [], _ => none
  | (k, v) :: rest, n => if k = n then some v else FS.lookup rest n

/-- Removal of the file named `n`, as `path.unlink()` does. -/
def FS.unlink (fs : FS) (n : String) : FS :=
  fs.filter (fun p => decide (p.1 ≠ n))

/-- Create or overwrite the file named `n` with content `c`
(`dst.open('wb')` followed by writes). -/
def FS.write (fs : FS) (n : String) (c : Bytes) : FS :=
  (n, c) :: FS.unlink fs n

/-- Move of the file at `src` to `dst`, replacing `dst`, as
`src.rename(dst)` does. -/
def FS.rename (fs : FS) (src dst : String) : FS :=
  match FS.lookup fs src with
  | some c => FS.write (FS.unlink fs src) dst c
  | none => fs

/-- Outcome of one attempted retrieval of a crate (retrieve_and_hash):
either urlopen itself fails — connection error, non-success HTTP status,
a timeout at connection time — raising a URLError before the destination
file is opened, or the streaming read/write loop fails after writing a
prefix of the payload — raising an exception that is not a URLError
(ConnectionResetError, an SSL error, an incomplete read), since only
urlopen wraps its failures in URLError — or the whole payload is
received. -/
inductive FetchResult where
  | connectFail
  | midStreamFail (part : Bytes)
  | success (content : Bytes)
deriving DecidableEq, Repr

/-- Result of processing one record in download_crate: the cache directory
afterwards, the log messages emitted, the number of network requests issued
(urlopen calls), and whether an exception escaped download_crate — its
handler catches URLError only, so a mid-stream failure propagates to the
caller. -/
structure DLResult where
  fs : FS
  log : List LogEvent
  requests : Nat
  raised : Bool
deriving Repr

/-- The fetch part of download_crate (from `LOGGER.info("%s:%s downloading")`
on): retrieve into the temporary name while hashing in flight; on success
compare the digest with the record's checksum and rename to the canonical
name on a match or to the quarantine name on a mismatch.  A URLError from
urlopen is caught and logged; a mid-stream failure leaves the partial write
at the temporary name and escapes the URLError handler, so nothing beyond
the "downloading" line is logged here.  `log0` holds messages already
emitted by the caller. -/
def fetch_phase (sha : Bytes → Bytes) (net : String → String → FetchResult)
    (fs : FS) (c : CrateVersion) (log0 : List LogEvent) : DLResult :=
  match net c.name c.vers with
  | .connectFail =>
      ⟨fs, log0 ++ [.infoDownloading c.name c.vers,
                    .errCannotDownload c.name c.vers], 1, false⟩
  | .midStreamFail part =>
      ⟨FS.write fs (tmpName c) part,
       log0 ++ [.infoDownloading c.name c.vers], 1, true⟩
  | .success content =>
      let fs1 := FS.write fs (tmpName c) content
      let hashv := sha content
      if hashv = c.cksum then
        ⟨FS.rename fs1 (tmpName c) (canonName c),
         log0 ++ [.infoDownloading c.name c.vers,
                  .infoDownloaded c.name c.vers], 1, false⟩
      else
        ⟨FS.rename fs1 (tmpName c) (corruptName c),
         log0 ++ [.infoDownloading c.name c.vers,
                  .warnCorrupt c.name c.vers (bytesToHex hashv)
                    (bytesToHex c.cksum)], 1, false⟩

/-- download_crate: if the canonical file exists with the expected digest,
skip with no network access; if it exists with a wrong digest, warn, delete
it and fall through to the fetch; otherwise fetch. -/
def download_crate (sha : Bytes → Bytes) (net : String → String → FetchResult)
    (fs : FS) (c : CrateVersion) : DLResult :=
  match FS.lookup fs (canonName c) with
  | some content =>
      if sha content = c.cksum then
        ⟨fs, [.debugSkip c.name c.vers], 0, false⟩
      else
        fetch_phase sha net (FS.unlink fs (canonName c)) c
          [.warnInvalidRetry c.name c.vers]
  | none => fetch_phase sha net fs c []

/-- dl, the wrapper the pool branch maps over the records: it catches every
exception escaping download_crate and logs it as an unexpected error, so
one record's failure never stops the other workers. -/
def dl (sha : Bytes → Bytes) (net : String → String → FetchResult)
    (fs : FS) (c : CrateVersion) : FS × List LogEvent :=
  let r := download_crate sha net fs c
  (r.fs, r.log ++ (if r.raised then [LogEvent.errUnexpected] else []))

/-- The condition of download_crate's skip branch:
`filepath.exists() and get_hash(filepath) == cksum`. -/
def validAt (sha : Bytes → Bytes) (fs : FS) (c : CrateVersion) : Bool :=
  match FS.lookup fs (canonName c) with
  | some content => sha content = c.cksum
  | none => false

/-- update's sequential branch (`parallel is 1`): a plain for loop over the
records in index order.  Its only handler is `except KeyboardError` — an
undefined name — so when download_crate raises (a mid-stream fetch
failure), evaluating that clause raises NameError and the loop aborts: the
remaining records are never processed and nothing further is logged. -/
def runSeq (sha : Bytes → Bytes) (net : String → String → FetchResult) :
    FS → List CrateVersion → FS
  | fs, [] => fs
  | fs, c :: rest =>
      let r := download_crate sha net fs c
      if r.raised then r.fs else runSeq sha net r.fs rest

/-- update's pool branch: each record is processed exactly once via dl,
which contains every exception, so the fold runs through the whole batch;
the list order stands for the workers' completion order. -/
def runPool (sha : Bytes → Bytes) (net : String → String → FetchResult)
    (fs : FS) (crates : List CrateVersion) : FS :=
  crates.foldl (fun s c => (dl sha net s c).1) fs

/-- One entry of the index tree under the index root: either a pack file
whose lines are the JSON records of one crate, or a subdirectory. -/
inductive IndexEntry where
  | file (name : String) (lines : List String)
  | dir (name : String) (entries : List IndexEntry)
deriving Repr

/-- The filename of an index entry (Path.name). -/
def entryName : IndexEntry → String
  | .file n _ => n
  | .dir n _ => n

/-- Code-point lexicographic order on character lists: the order Python's
sorted() uses when comparing the path names of the children of one index
directory. -/
def charListLe : List Char → List Char → Bool
  | [], _ => true
  | _ :: _, [] => false
  | a :: as1, b :: bs1 =>
      if a < b then true else if b < a then false else charListLe as1 bs1

/-- Name order on index entries. -/
def nameLe (a b : IndexEntry) : Bool :=
  charListLe (entryName a).data (entryName b).data

/-- Insertion step of the stable sort modelling `sorted(indexdir.iterdir())`. -/
def insertByName (a : IndexEntry) : List IndexEntry → List IndexEntry
  | [] => [a]
  | b :: rest =>
      if nameLe a b then a :: b :: rest else b :: insertByName a rest

/-- Stable sort of a directory's children by name, modelling
`sorted(indexdir.iterdir())`. -/
def sortByName : List IndexEntry → List IndexEntry
  | [] => []
  | a :: rest => insertByName a (sortByName rest)

/-- Membership fact about insertByName, needed to justify the recursion of
get_crates; phrased as a definition so the whole development keeps its
definitions ahead of its theorems. -/
def mem_insertByName {x a : IndexEntry} {l : List IndexEntry}
    (h : x ∈ insertByName a l) : x = a ∨ x ∈ l := by
  induction l with
  | nil =>
      rw [insertByName] at h
      rcases List.mem_singleton.mp h with h
      exact Or.inl h
  | cons b rest ih =>
      rw [insertByName] at h
      by_cases hle : nameLe a b = true
      · rw [if_pos hle] at h
        rcases List.mem_cons.mp h with h | h
        · exact Or.inl h
        · exact Or.inr h
      · rw [if_neg hle] at h
        rcases List.mem_cons.mp h with h | h
        · exact Or.inr (by simp [h])
        · rcases ih h with h' | h'
          · exact Or.inl h'
          · exact Or.inr (by simp [h'])

/-- Sorting a directory listing loses no entry; justifies the recursion of
get_crates. -/
def mem_sortByName {x : IndexEntry} {l : List IndexEntry}
    (h : x ∈ sortByName l) : x ∈ l := by
  induction l with
  | nil =>
      rw [sortByName] at h
      exact absurd h (List.not_mem_nil x)
  | cons a rest ih =>
      rw [sortByName] at h
      rcases mem_insertByName h with h' | h'
      · simp [h']
      · exact List.mem_cons_of_mem _ (ih h')

/-- The loop filter of get_crates: hidden entries, whose first character
is a dot (`a.name[0] == '.'`), and the reserved `config.json` file are
skipped. -/
def keepEntry (e : IndexEntry) : Bool :=
  !(decide ((entryName e).data.head? = some '.')) && entryName e != "config.json"

/-- Outcome of CrateVersion.fromjson on one line: the record; or json.loads
raises JSONDecodeError — the only exception get_crate_versions catches; or
the line is valid JSON but not a valid record — a non-object value, a
missing key, a cksum that is not valid hex — and fromjson raises TypeError,
KeyError or ValueError, which no caller catches. -/
inductive ParseResult where
  | ok (c : CrateVersion)
  | jsonError
  | recordError
deriving DecidableEq, Repr

/-- Whether fromjson produced a record. -/
def ParseResult.isOk : ParseResult → Bool
  | .ok _ => true
  | _ => false

/-- Result of consuming the record generator of one index subtree: the
records yielded before the iteration ended, the log lines emitted, and
whether the iteration ended by an uncaught exception — which the consumer
(list(...) in update, set(...) in cleanup) then re-raises. -/
structure ScanResult where
  records : List CrateVersion
  log : List LogEvent
  raised : Bool
deriving DecidableEq, Repr

/-- Sequencing of two scanned subtrees, as the `yield from` chain of
get_crates does it: once an uncaught exception has ended the first
subtree's iteration, the second is never visited. -/
def scanSeq (r1 r2 : ScanResult) : ScanResult :=
  if r1.raised then r1
  else ⟨r1.records ++ r2.records, r1.log ++ r2.log, r2.raised⟩

/-- The records of the decodable lines of one pack file. -/
def okRecords (parse : String → ParseResult) (ls : List String) :
    List CrateVersion :=
  ls.filterMap (fun l => match parse l with | .ok c => some c | _ => none)

/-- get_crate_versions: decode the lines of one pack file one by one.
The try block encloses the whole for loop and catches only JSONDecodeError,
so a line that fails JSON decoding logs the error and ends the generator —
the remaining lines of the file are not decoded — while a valid-JSON line
that fromjson rejects raises out of the generator uncaught and unlogged. -/
def get_crate_versions (parse : String → ParseResult)
    (fname : String) : List String → ScanResult
  | [] => ⟨[], [], false⟩
  | l :: rest =>
      match parse l with
      | .ok c =>
          let r := get_crate_versions parse fname rest
          ⟨c :: r.records, r.log, r.raised⟩
      | .jsonError => ⟨[], [LogEvent.errParse fname], false⟩
      | .recordError => ⟨[], [], true⟩

/-- get_crates: walk the index tree, children of each directory visited in
sorted name order, skipping hidden names and config.json, recursing into
subdirectories and decoding every other file as a pack file; an uncaught
exception in one child stops the whole walk. -/
def get_crates (parse : String → ParseResult) : IndexEntry → ScanResult
  | .file fname lines => get_crate_versions parse fname lines
  | .dir _ entries =>
      ((sortByName entries).attach.map (fun ⟨x, hx⟩ =>
        if keepEntry x then get_crates parse x
        else (⟨[], [], false⟩ : ScanResult))).foldr scanSeq ⟨[], [], false⟩
termination_by e => sizeOf e
decreasing_by
  simp_wf
  have := List.sizeOf_lt_of_mem (mem_sortByName hx)
  omega

/-- The set of canonical filenames derived from the records of the index
(`crates = set('%s-%s.crate' % (k.name, k.vers) for k in get_crates(index))`
in cleanup). -/
def expectedNames (parse : String → ParseResult)
    (root : IndexEntry) : List String :=
  (get_crates parse root).records.map canonName

/-- Whether filename `n` matches the glob pattern `*` followed by `pat`:
fnmatch translates such a pattern to "ends with pat". -/
def matchSuffix (pat : String) (n : String) : Bool :=
  decide (pat.data <:+ n.data)

/-- The three deletion passes of cleanup over the cache directory listing:
first every `*.crate` file whose name is not among the expected canonical
names, then every `*.crate~` partial download, then every
`*.crate~corrupted` quarantined download. -/
def cleanup_files (names : List String) (fs : FS) : FS :=
  let fs1 := fs.filter (fun p => !(matchSuffix ".crate" p.1) || names.contains p.1)
  let fs2 := fs1.filter (fun p => !(matchSuffix ".crate~" p.1))
  fs2.filter (fun p => !(matchSuffix ".crate~corrupted" p.1))

/-- cleanup: recompute the expected canonical names from the index and run
the three deletion passes over the cache directory.  The set(...) building
the names is evaluated in full before any deletion, so an uncaught record
error during the index scan crashes cleanup with the cache untouched. -/
def cleanup (parse : String → ParseResult) (root : IndexEntry)
    (fs : FS) : FS :=
  if (get_crates parse root).raised then fs
  else cleanup_files (expectedNames parse root) fs

/-- The state of the `index` subdirectory when update starts. -/
inductive IndexState where
  | missing
  | present (root : IndexEntry)

/-- update: if the index directory does not exist, log
"invalid local registry: no index" and return at once, before the index
refresh, the scan and any download; otherwise collect the records —
`crates = list(get_crates(index))`, which re-raises an uncaught record
error before any download — and process every record (sequential branch
shown; the pool branch is runPool). -/
def update_cmd (sha : Bytes → Bytes) (net : String → String → FetchResult)
    (parse : String → ParseResult) (idx : IndexState) (fs : FS) :
    FS × List LogEvent :=
  match idx with
  | .missing => (fs, [LogEvent.errNoIndex])
  | .present root =>
      let scan := get_crates parse root
      if scan.raised then (fs, scan.log)
      else (runSeq sha net fs scan.records,
            scan.log ++ [LogEvent.infoCrateCount scan.records.length])

/-- Exit status of the `update` command for the paths the claims concern:
on a missing index, update logs, returns None, main returns, and the
interpreter exits 0 — no path reaches sys.exit; an uncaught record error
during the scan instead crashes the interpreter with a traceback, status
1. -/
def update_exit_status (sha : Bytes → Bytes)
    (net : String → String → FetchResult)
    (parse : String → ParseResult) (idx : IndexState) (fs : FS) :
    Nat :=
  match idx with
  | .missing =>
      let _ := update_cmd sha net parse idx fs
      0
  | .present root => if (get_crates parse root).raised then 1 else 0

/-- What the fetch part of download_crate leaves at filename `m`, as a
function of the fetch outcome and of `underlying`, the content at `m`
before the fetch; used by the closed description of download_crate. -/
def fetchLook (sha : Bytes → Bytes) (res : FetchResult) (c : CrateVersion)
    (m : String) (underlying : Option Bytes) : Option Bytes :=
  match res with
  | .connectFail => underlying
  | .midStreamFail part => if m = tmpName c then some part else underlying
  | .success content =>
      if sha content = c.cksum then
        if m = canonName c then some content
        else if m = tmpName c then none else underlying
      else
        if m = corruptName c then some content
        else if m = tmpName c then none else underlying

/-- Two records that differ at most in their yanked flag. -/
def yankedVariant (c c' : CrateVersion) : Prop :=
  c.name = c'.name ∧ c.vers = c'.vers ∧ c.cksum = c'.cksum

/-! ### Concrete instances used by the witnesses and counterexamples -/

/-- A digest function for concrete runs: content serves as its own digest. -/
def idSha : Bytes → Bytes := fun b => b

def wA : CrateVersion := ⟨"alpha", "1.0.0", false, [1, 2]⟩

def wB : CrateVersion := ⟨"beta", "2.0.0", false, [3]⟩

/-- wA with the yanked flag flipped. -/
def wAyank : CrateVersion := ⟨"alpha", "1.0.0", true, [1, 2]⟩

def netConnFail : String → String → FetchResult :=
  fun _ _ => FetchResult.connectFail

def netMidStream : String → String → FetchResult :=
  fun _ _ => FetchResult.midStreamFail [7]

def netBadPayload : String → String → FetchResult :=
  fun _ _ => FetchResult.success [9]

/-- The record the line "good" decodes to under parseStub. -/
def wGood : CrateVersion := ⟨"foo", "1.0.0", false, [0]⟩

/-- A decoder standing for CrateVersion.fromjson on an index where the line
"good" is the only decodable record, "badrec" is valid JSON that fromjson
rejects (uncaught), and every other line fails JSON decoding (caught). -/
def parseStub : String → ParseResult :=
  fun s =>
    if s = "good" then ParseResult.ok wGood
    else if s = "badrec" then ParseResult.recordError
    else ParseResult.jsonError

/-- A one-file index whose single line decodes, for witnesses needing a
scan that completes. -/
def wRoot : IndexEntry := IndexEntry.dir "idx" [IndexEntry.file "go" ["good"]]

/-- A network where the fetch of alpha fails in mid-stream and every other
fetch succeeds with the payload of wB. -/
def netC5 : String → String → FetchResult :=
  fun n _ =>
    if n = "alpha" then FetchResult.midStreamFail [7]
    else FetchResult.success [3]

/-! ### Lookup lemmas for the filesystem operations -/

theorem lookup_filter (q : String → Bool) (fs : FS) (n : String) :
    FS.lookup (fs.filter (fun p => q p.1)) n =
      if q n then FS.lookup fs n else none := by
  induction fs with
  | nil => simp [FS.lookup]
  | cons hd tl ih =>
      by_cases hq : q hd.1
      · by_cases he : hd.1 = n
        · subst he
          simp [FS.lookup, List.filter_cons, hq]
        · simp [FS.lookup, List.filter_cons, hq, he, ih]
      · by_cases he : hd.1 = n
        · subst he
          simp only [List.filter_cons]
          rw [if_neg (by simpa using hq)]
          rw [ih]
          simp [hq]
        · simp only [List.filter_cons]
          rw [if_neg (by simpa using hq)]
          rw [ih]
          simp [FS.lookup, he]

theorem lookup_unlink (fs : FS) (n m : String) :
    FS.lookup (FS.unlink fs n) m = if m = n then none else FS.lookup fs m := by
  unfold FS.unlink
  have : (fun p : String × Bytes => decide (p.1 ≠ n)) =
      (fun p : String × Bytes => !(p.1 == n)) := by
    funext p
    by_cases h : p.1 = n <;> simp [h]
  rw [this, lookup_filter (fun k => !(k == n))]
  by_cases h : m = n <;> simp [h]

theorem lookup_write (fs : FS) (n : String) (c : Bytes) (m : String) :
    FS.lookup (FS.write fs n c) m = if m = n then some c else FS.lookup fs m := by
  unfold FS.write
  by_cases h : m = n
  · subst h
    simp [FS.lookup]
  · simp only [FS.lookup]
    rw [if_neg (fun hh => h hh.symm), lookup_unlink]
    simp [h]

theorem lookup_rename (fs : FS) (src dst m : String) :
    FS.lookup (FS.rename fs src dst) m =
      match FS.lookup fs src with
      | some c => if m = dst then some c
                  else if m = src then none else FS.lookup fs m
      | none => FS.lookup fs m := by
  unfold FS.rename
  cases hs : FS.lookup fs src with
  | none => rfl
  | some c =>
      show FS.lookup (FS.write (FS.unlink fs src) dst c) m =
        if m = dst then some c else if m = src then none else FS.lookup fs m
      rw [lookup_write]
      by_cases h1 : m = dst
      · simp [h1]
      · rw [if_neg h1, lookup_unlink, if_neg h1]

/-! ### Disjointness of the canonical, temporary and quarantine filenames -/

theorem append_singleton_ne {l1 l2 : List Char} {a b : Char} (h : a ≠ b) :
    l1 ++ [a] ≠ l2 ++ [b] := by
  intro he
  have := congrArg List.getLast? he
  rw [List.getLast?_concat, List.getLast?_concat] at this
  exact h (Option.some.inj this)

theorem canon_ne_tmp (c c' : CrateVersion) : canonName c ≠ tmpName c' := by
  intro h
  have hd := congrArg String.data h
  rw [canonName, tmpName, String.data_append, String.data_append] at hd
  have h1 : ".crate".data = ['.', 'c', 'r', 'a', 't'] ++ ['e'] := by decide
  have h2 : ".crate~".data = ['.', 'c', 'r', 'a', 't', 'e'] ++ ['~'] := by decide
  rw [h1, h2, ← List.append_assoc, ← List.append_assoc] at hd
  exact append_singleton_ne (by decide) hd

theorem canon_ne_corrupt (c c' : CrateVersion) : canonName c ≠ corruptName c' := by
  intro h
  have hd := congrArg String.data h
  rw [canonName, corruptName, String.data_append, String.data_append] at hd
  have h1 : ".crate".data = ['.', 'c', 'r', 'a', 't'] ++ ['e'] := by decide
  have h2 : ".crate~corrupted".data =
      ['.', 'c', 'r', 'a', 't', 'e', '~', 'c', 'o', 'r', 'r', 'u', 'p', 't', 'e']
        ++ ['d'] := by decide
  rw [h1, h2, ← List.append_assoc, ← List.append_assoc] at hd
  exact append_singleton_ne (by decide) hd

theorem tmp_ne_corrupt (c c' : CrateVersion) : tmpName c ≠ corruptName c' := by
  intro h
  have hd := congrArg String.data h
  rw [tmpName, corruptName, String.data_append, String.data_append] at hd
  have h1 : ".crate~".data = ['.', 'c', 'r', 'a', 't', 'e'] ++ ['~'] := by decide
  have h2 : ".crate~corrupted".data =
      ['.', 'c', 'r', 'a', 't', 'e', '~', 'c', 'o', 'r', 'r', 'u', 'p', 't', 'e']
        ++ ['d'] := by decide
  rw [h1, h2, ← List.append_assoc, ← List.append_assoc] at hd
  exact append_singleton_ne (by decide) hd

theorem suffix_name_inj {s : String} {c c' : CrateVersion}
    (h : nvKey c ++ s = nvKey c' ++ s) : nvKey c = nvKey c' := by
  have hd := congrArg String.data h
  rw [String.data_append, String.data_append] at hd
  exact String.ext (List.append_cancel_right hd)

theorem canon_inj {c c' : CrateVersion} (h : canonName c = canonName c') :
    nvKey c = nvKey c' := suffix_name_inj h

theorem tmp_inj {c c' : CrateVersion} (h : tmpName c = tmpName c') :
    nvKey c = nvKey c' := suffix_name_inj h

theorem corrupt_inj {c c' : CrateVersion} (h : corruptName c = corruptName c') :
    nvKey c = nvKey c' := suffix_name_inj h

/-! ### A closed description of the cache contents after one record -/

theorem lookup_fetch_phase (sha : Bytes → Bytes)
    (net : String → String → FetchResult) (fs : FS) (c : CrateVersion)
    (log0 : List LogEvent) (m : String) :
    FS.lookup (fetch_phase sha net fs c log0).fs m =
      fetchLook sha (net c.name c.vers) c m (FS.lookup fs m) := by
  unfold fetch_phase fetchLook
  cases net c.name c.vers with
  | connectFail => rfl
  | midStreamFail part => simp [lookup_write]
  | success content =>
      have d1 := canon_ne_tmp c c
      have d2 := canon_ne_corrupt c c
      have d3 := tmp_ne_corrupt c c
      by_cases hh : sha content = c.cksum <;>
        by_cases h1 : m = canonName c <;>
        by_cases h2 : m = tmpName c <;>
        by_cases h3 : m = corruptName c <;>
        simp_all [lookup_rename, lookup_write]

/-- Master description: the content at filename `m` after download_crate, as
a function of the prior content at the record's canonical name, the prior
content at `m`, and the fetch outcome. -/
theorem lookup_download (sha : Bytes → Bytes)
    (net : String → String → FetchResult) (fs : FS) (c : CrateVersion)
    (m : String) :
    FS.lookup (download_crate sha net fs c).fs m =
      match FS.lookup fs (canonName c) with
      | some content =>
          if sha content = c.cksum then FS.lookup fs m
          else fetchLook sha (net c.name c.vers) c m
            (if m = canonName c then none else FS.lookup fs m)
      | none =>
          fetchLook sha (net c.name c.vers) c m
            (if m = canonName c then none else FS.lookup fs m) := by
  unfold download_crate
  cases hcanon : FS.lookup fs (canonName c) with
  | none =>
      rw [lookup_fetch_phase]
      by_cases h1 : m = canonName c
      · rw [if_pos h1, h1, hcanon]
      · rw [if_neg h1]
  | some content =>
      by_cases hh : sha content = c.cksum
      · simp [hh]
      · simp only [hh, if_neg hh, if_false]
        rw [lookup_fetch_phase, lookup_unlink]

/-! ### Frame, locality and commutation of per-record processing -/

/-- download_crate touches no filename other than the record's canonical,
temporary and quarantine names. -/
theorem lookup_download_frame (sha : Bytes → Bytes)
    (net : String → String → FetchResult) (fs : FS) (c : CrateVersion)
    (m : String) (h1 : m ≠ canonName c) (h2 : m ≠ tmpName c)
    (h3 : m ≠ corruptName c) :
    FS.lookup (download_crate sha net fs c).fs m = FS.lookup fs m := by
  rw [lookup_download]
  have hfetch : fetchLook sha (net c.name c.vers) c m
      (if m = canonName c then none else FS.lookup fs m) = FS.lookup fs m := by
    unfold fetchLook
    cases net c.name c.vers with
    | connectFail => simp [h1]
    | midStreamFail part => simp [h1, h2]
    | success content =>
        by_cases hs : sha content = c.cksum <;> simp [hs, h1, h2, h3]
  cases hcanon : FS.lookup fs (canonName c) with
  | none => exact hfetch
  | some content =>
      by_cases hs2 : sha content = c.cksum <;> simp [hs2, hfetch]

/-- The content download_crate leaves at a filename depends only on the
prior contents at the record's canonical name and at that filename. -/
theorem lookup_download_local (sha : Bytes → Bytes)
    (net : String → String → FetchResult) {fs fs' : FS} (c : CrateVersion)
    (m : String)
    (hcanon : FS.lookup fs (canonName c) = FS.lookup fs' (canonName c))
    (hm : FS.lookup fs m = FS.lookup fs' m) :
    FS.lookup (download_crate sha net fs c).fs m =
      FS.lookup (download_crate sha net fs' c).fs m := by
  rw [lookup_download, lookup_download, ← hcanon, ← hm]

/-- Processing two records with distinct canonical names commutes: the cache
contents do not depend on which of the two is processed first. -/
theorem download_comm (sha : Bytes → Bytes)
    (net : String → String → FetchResult) (fs : FS) {c c' : CrateVersion}
    (hne : canonName c ≠ canonName c') (m : String) :
    FS.lookup
      (download_crate sha net (download_crate sha net fs c).fs c').fs m =
    FS.lookup
      (download_crate sha net (download_crate sha net fs c').fs c).fs m := by
  have hk : nvKey c ≠ nvKey c' := fun h => hne (by rw [canonName, canonName, h])
  have d1 : canonName c ≠ tmpName c' := canon_ne_tmp c c'
  have d2 : canonName c ≠ corruptName c' := canon_ne_corrupt c c'
  have d3 : tmpName c ≠ canonName c' := (canon_ne_tmp c' c).symm
  have d4 : tmpName c ≠ tmpName c' := fun h => hk (tmp_inj h)
  have d5 : tmpName c ≠ corruptName c' := tmp_ne_corrupt c c'
  have d6 : corruptName c ≠ canonName c' := (canon_ne_corrupt c' c).symm
  have d7 : corruptName c ≠ tmpName c' := (tmp_ne_corrupt c' c).symm
  have d8 : corruptName c ≠ corruptName c' := fun h => hk (corrupt_inj h)
  by_cases hm1 : m = canonName c' ∨ m = tmpName c' ∨ m = corruptName c'
  · have hmc1 : m ≠ canonName c := by
      rcases hm1 with h | h | h <;> subst h
      · exact fun h => hne h.symm
      · exact fun h => d1 h.symm
      · exact fun h => d2 h.symm
    have hmc2 : m ≠ tmpName c := by
      rcases hm1 with h | h | h <;> subst h
      · exact fun h => d3 h.symm
      · exact fun h => d4 h.symm
      · exact fun h => d5 h.symm
    have hmc3 : m ≠ corruptName c := by
      rcases hm1 with h | h | h <;> subst h
      · exact fun h => d6 h.symm
      · exact fun h => d7 h.symm
      · exact fun h => d8 h.symm
    rw [lookup_download_frame sha net (download_crate sha net fs c').fs c m
      hmc1 hmc2 hmc3]
    exact lookup_download_local sha net c' m
      (lookup_download_frame sha net fs c (canonName c')
        (Ne.symm hne) d3.symm d6.symm)
      (lookup_download_frame sha net fs c m hmc1 hmc2 hmc3)
  · push_neg at hm1
    obtain ⟨hma, hmb, hmc⟩ := hm1
    rw [lookup_download_frame sha net (download_crate sha net fs c).fs c' m
      hma hmb hmc]
    exact (lookup_download_local sha net c m
      (lookup_download_frame sha net fs c' (canonName c) hne d1 d2)
      (lookup_download_frame sha net fs c' m hma hmb hmc)).symm

theorem runPool_nil (sha : Bytes → Bytes) (net : String → String → FetchResult)
    (fs : FS) : runPool sha net fs [] = fs := rfl

theorem runPool_cons (sha : Bytes → Bytes) (net : String → String → FetchResult)
    (fs : FS) (c : CrateVersion) (rest : List CrateVersion) :
    runPool sha net fs (c :: rest) =
      runPool sha net (download_crate sha net fs c).fs rest := rfl

theorem runSeq_cons (sha : Bytes → Bytes) (net : String → String → FetchResult)
    (fs : FS) (c : CrateVersion) (rest : List CrateVersion) :
    runSeq sha net fs (c :: rest) =
      (if (download_crate sha net fs c).raised
       then (download_crate sha net fs c).fs
       else runSeq sha net (download_crate sha net fs c).fs rest) := rfl

/-- A mid-stream fetch failure is the only outcome whose exception escapes
download_crate: when the record's fetch cannot fail in mid-stream, no
exception is raised, whatever the cache state. -/
theorem download_not_raised (sha : Bytes → Bytes)
    (net : String → String → FetchResult) (fs : FS) (c : CrateVersion)
    (h : ∀ p, net c.name c.vers ≠ FetchResult.midStreamFail p) :
    (download_crate sha net fs c).raised = false := by
  unfold download_crate fetch_phase
  cases hc : FS.lookup fs (canonName c) with
  | some c0 =>
      by_cases hs : sha c0 = c.cksum
      · simp [hs]
      · cases hn : net c.name c.vers with
        | connectFail => simp [hs, hn]
        | midStreamFail part => exact absurd hn (h part)
        | success content =>
            by_cases h2 : sha content = c.cksum <;> simp [hs, hn, h2]
  | none =>
      cases hn : net c.name c.vers with
      | connectFail => simp [hn]
      | midStreamFail part => exact absurd hn (h part)
      | success content =>
          by_cases h2 : sha content = c.cksum <;> simp [hn, h2]

/-- When no record of the batch can fail in mid-stream, the sequential
branch never aborts and processes exactly what the pool branch processes. -/
theorem runSeq_eq_runPool (sha : Bytes → Bytes)
    (net : String → String → FetchResult) (crates : List CrateVersion)
    (fs : FS)
    (h : ∀ c ∈ crates, ∀ p, net c.name c.vers ≠ FetchResult.midStreamFail p) :
    runSeq sha net fs crates = runPool sha net fs crates := by
  induction crates generalizing fs with
  | nil => rfl
  | cons c rest ih =>
      rw [runSeq_cons, runPool_cons, download_not_raised sha net fs c
        (h c (by simp)), if_neg (by simp)]
      exact ih _ (fun c' hc' p => h c' (by simp [hc']) p)

/-- Processing a batch over two cache states with identical contents yields
identical contents. -/
theorem runPool_congr (sha : Bytes → Bytes)
    (net : String → String → FetchResult) (crates : List CrateVersion)
    {fs fs' : FS} (h : ∀ k, FS.lookup fs k = FS.lookup fs' k) (m : String) :
    FS.lookup (runPool sha net fs crates) m =
      FS.lookup (runPool sha net fs' crates) m := by
  induction crates generalizing fs fs' with
  | nil => exact h m
  | cons c rest ih =>
      rw [runPool_cons, runPool_cons]
      exact ih (fun k => lookup_download_local sha net c k (h _) (h k))

/-- Permutation invariance of the pool branch: processing the records of a
batch in any completion order yields the same final cache contents,
provided distinct records have distinct canonical filenames. -/
theorem runPool_perm (sha : Bytes → Bytes)
    (net : String → String → FetchResult) {l l' : List CrateVersion}
    (hp : l.Perm l') :
    (l.map canonName).Nodup → ∀ (fs : FS) (m : String),
      FS.lookup (runPool sha net fs l) m =
        FS.lookup (runPool sha net fs l') m := by
  induction hp with
  | nil => intro _ fs m; rfl
  | cons x hp ih =>
      intro hnd fs m
      rw [runPool_cons, runPool_cons]
      exact ih (by simp only [List.map_cons, List.nodup_cons] at hnd; exact hnd.2)
        _ m
  | swap x y l1 =>
      intro hnd fs m
      rw [runPool_cons, runPool_cons, runPool_cons, runPool_cons]
      have hne : canonName y ≠ canonName x := by
        simp only [List.map_cons, List.nodup_cons, List.mem_cons] at hnd
        exact fun h => hnd.1 (Or.inl h)
      exact runPool_congr sha net l1 (fun k => download_comm sha net fs hne k) m
  | trans hp1 hp2 ih1 ih2 =>
      intro hnd fs m
      rw [ih1 hnd fs m]
      exact ih2 ((hp1.map canonName).nodup_iff.mp hnd) fs m

/-! ### Glob matching facts for the three filename conventions -/

theorem matchSuffix_append (pat x : String) :
    matchSuffix pat (x ++ pat) = true := by
  rw [matchSuffix, decide_eq_true_iff, String.data_append]
  exact List.suffix_append _ _

/-- Two suffix patterns neither of which is a suffix of the other never both
match one filename. -/
theorem suffix_excl {p q : String} (h1 : ¬ (p.data <:+ q.data))
    (h2 : ¬ (q.data <:+ p.data)) {n : String}
    (hp : matchSuffix p n = true) (hq : matchSuffix q n = true) : False := by
  rw [matchSuffix, decide_eq_true_iff] at hp hq
  rcases List.suffix_or_suffix_of_suffix hp hq with hs | hs
  · exact h1 hs
  · exact h2 hs

theorem excl_crate_tmp {n : String} (h1 : matchSuffix ".crate" n = true)
    (h2 : matchSuffix ".crate~" n = true) : False :=
  suffix_excl (by decide) (by decide) h1 h2

theorem excl_crate_corr {n : String} (h1 : matchSuffix ".crate" n = true)
    (h2 : matchSuffix ".crate~corrupted" n = true) : False :=
  suffix_excl (by decide) (by decide) h1 h2

theorem excl_tmp_corr {n : String} (h1 : matchSuffix ".crate~" n = true)
    (h2 : matchSuffix ".crate~corrupted" n = true) : False :=
  suffix_excl (by decide) (by decide) h1 h2

/-- Pointwise description of one reconciliation pass, in the order the
specification states it: every file matching the partial or the quarantine
convention is removed regardless of the index; every committed-named file
absent from the expected set is removed; everything else is untouched. -/
theorem lookup_cleanup_files (names : List String) (fs : FS) (n : String) :
    FS.lookup (cleanup_files names fs) n =
      if matchSuffix ".crate~" n || matchSuffix ".crate~corrupted" n then none
      else if matchSuffix ".crate" n && !(names.contains n) then none
      else FS.lookup fs n := by
  unfold cleanup_files
  rw [lookup_filter (fun k => !(matchSuffix ".crate~corrupted" k)),
    lookup_filter (fun k => !(matchSuffix ".crate~" k)),
    lookup_filter (fun k => !(matchSuffix ".crate" k) || names.contains k)]
  cases h1 : matchSuffix ".crate" n <;> cases h2 : matchSuffix ".crate~" n <;>
    cases h3 : matchSuffix ".crate~corrupted" n <;>
    cases h4 : names.contains n <;>
    first
      | exact absurd (excl_crate_tmp h1 h2) (fun h => h)
      | exact absurd (excl_crate_corr h1 h3) (fun h => h)
      | exact absurd (excl_tmp_corr h2 h3) (fun h => h)
      | simp

/-- Pointwise description of one completed reconciliation pass (one whose
index scan did not raise). -/
theorem lookup_cleanup (parse : String → ParseResult)
    (root : IndexEntry) (fs : FS) (n : String)
    (hscan : (get_crates parse root).raised = false) :
    FS.lookup (cleanup parse root fs) n =
      if matchSuffix ".crate~" n || matchSuffix ".crate~corrupted" n then none
      else if matchSuffix ".crate" n
          && !((expectedNames parse root).contains n) then none
      else FS.lookup fs n := by
  unfold cleanup
  rw [hscan, if_neg (by simp)]
  exact lookup_cleanup_files (expectedNames parse root) fs n

/-- One reconciliation pass deletes everything a second identical pass would
delete: the three filters are idempotent. -/
theorem cleanup_files_idem (names : List String) (fs : FS) :
    cleanup_files names (cleanup_files names fs) = cleanup_files names fs := by
  unfold cleanup_files
  simp only [List.filter_filter]
  apply List.filter_congr
  intro x _
  cases hq1 : matchSuffix ".crate" x.1 <;>
    cases hq2 : matchSuffix ".crate~" x.1 <;>
    cases hq3 : matchSuffix ".crate~corrupted" x.1 <;>
    cases hq4 : names.contains x.1 <;> simp [hq1, hq2, hq3, hq4]

/-! ### Unfolding get_crates on a directory -/

theorem attach_map_eval {α β : Type _} (l : List α) (f : α → β) :
    (l.attach.map (fun x => f x.1)) = l.map f := List.attach_map_val l f

/-- get_crates on a single pack file decodes its lines. -/
theorem get_crates_file (parse : String → ParseResult)
    (fname : String) (lines : List String) :
    get_crates parse (IndexEntry.file fname lines) =
      get_crate_versions parse fname lines := by
  rw [get_crates]

/-- get_crates on a directory sequences, over the sorted and filtered
children, the scan each child contributes, stopping at the first child
whose scan raised. -/
theorem get_crates_dir (parse : String → ParseResult) (dn : String)
    (entries : List IndexEntry) :
    get_crates parse (IndexEntry.dir dn entries) =
      ((sortByName entries).map (fun x =>
        if keepEntry x then get_crates parse x
        else (⟨[], [], false⟩ : ScanResult))).foldr scanSeq ⟨[], [], false⟩ := by
  rw [get_crates]
  exact congrArg _ (attach_map_eval (sortByName entries)
    (fun x => if keepEntry x then get_crates parse x
      else (⟨[], [], false⟩ : ScanResult)))

/-- scanSeq with the empty scan on the right is the identity. -/
theorem scanSeq_empty (r : ScanResult) :
    scanSeq r ⟨[], [], false⟩ = r := by
  obtain ⟨recs, lg, rz⟩ := r
  cases rz <;> simp [scanSeq]

/-- Scanning the concrete one-file index wRoot completes without raising
and yields its single record. -/
theorem wRoot_scan :
    get_crates parseStub wRoot = ⟨[wGood], [], false⟩ := by
  have hf : get_crates parseStub (IndexEntry.file "go" ["good"]) =
      (⟨[wGood], [], false⟩ : ScanResult) := by rw [get_crates_file]; decide
  rw [wRoot, get_crates_dir]
  simp [show sortByName [IndexEntry.file "go" ["good"]] =
      [IndexEntry.file "go" ["good"]] from rfl,
    show keepEntry (IndexEntry.file "go" ["good"]) = true from rfl,
    hf, scanSeq_empty]

/-! ### The claims -/

/-- Claim C1, counterexample: the claim fails in both decode-failure modes
of the source.  A line that fails JSON decoding ends the read of its own
pack file, so the decodable record on the following line is not yielded;
and a valid-JSON line that fromjson rejects (a record error) raises an
uncaught exception that aborts the read of the entire index with no log —
the decodable record of a different file is not yielded either. -/
theorem c1_counterexample :
    parseStub "badjson" = ParseResult.jsonError ∧
    parseStub "badrec" = ParseResult.recordError ∧
    parseStub "good" = ParseResult.ok wGood ∧
    (get_crate_versions parseStub "fo" ["badjson", "good"]).records = [] ∧
    wGood ∉ (get_crate_versions parseStub "fo" ["badjson", "good"]).records ∧
    get_crates parseStub (IndexEntry.dir "idx"
        [IndexEntry.file "fo" ["badrec"], IndexEntry.file "go" ["good"]]) =
      ⟨[], [], true⟩ ∧
    wGood ∉ (get_crates parseStub (IndexEntry.dir "idx"
        [IndexEntry.file "fo" ["badrec"], IndexEntry.file "go" ["good"]])).records := by
  have hf1 : get_crates parseStub (IndexEntry.file "fo" ["badrec"]) =
      (⟨[], [], true⟩ : ScanResult) := by rw [get_crates_file]; decide
  have hf2 : get_crates parseStub (IndexEntry.file "go" ["good"]) =
      (⟨[wGood], [], false⟩ : ScanResult) := by rw [get_crates_file]; decide
  have hsort : sortByName
      [IndexEntry.file "fo" ["badrec"], IndexEntry.file "go" ["good"]] =
      [IndexEntry.file "fo" ["badrec"], IndexEntry.file "go" ["good"]] := rfl
  have hdir : get_crates parseStub (IndexEntry.dir "idx"
      [IndexEntry.file "fo" ["badrec"], IndexEntry.file "go" ["good"]]) =
      (⟨[], [], true⟩ : ScanResult) := by
    rw [get_crates_dir, hsort]
    simp [show keepEntry (IndexEntry.file "fo" ["badrec"]) = true from rfl,
      show keepEntry (IndexEntry.file "go" ["good"]) = true from rfl,
      hf1, hf2, scanSeq_empty, scanSeq]
  refine ⟨rfl, rfl, rfl, rfl, ?_, hdir, ?_⟩
  · intro h
    simp [get_crate_versions, parseStub] at h
  · intro h
    rw [hdir] at h
    simp at h

/-- Claim C1 as amended: only a line that fails JSON decoding is logged as
a non-fatal error, and it ends the read of its own pack file — the records
decoded before it are yielded, the remaining lines of the same file are
skipped, and every other file of the index is still read in full; a
valid-JSON line that fromjson rejects instead raises an uncaught exception
that aborts the read of the entire index, unlogged — later files are never
visited. -/
theorem c1_index_read_failure_modes (parse : String → ParseResult)
    (fname dn : String) (ls1 ls2 : List String) (bad : String)
    (e2 : IndexEntry)
    (h1 : ∀ l ∈ ls1, (parse l).isOk = true)
    (hbad : parse bad = ParseResult.jsonError ∨
            parse bad = ParseResult.recordError)
    (hk1 : keepEntry (IndexEntry.file fname (ls1 ++ bad :: ls2)) = true)
    (hk2 : keepEntry e2 = true)
    (h12 : nameLe (IndexEntry.file fname (ls1 ++ bad :: ls2)) e2 = true) :
    get_crate_versions parse fname (ls1 ++ bad :: ls2) =
      (if parse bad = ParseResult.jsonError
       then (⟨okRecords parse ls1, [LogEvent.errParse fname], false⟩ : ScanResult)
       else ⟨okRecords parse ls1, [], true⟩) ∧
    get_crates parse (IndexEntry.dir dn
        [IndexEntry.file fname (ls1 ++ bad :: ls2), e2]) =
      (if parse bad = ParseResult.jsonError
       then (⟨okRecords parse ls1 ++ (get_crates parse e2).records,
              [LogEvent.errParse fname] ++ (get_crates parse e2).log,
              (get_crates parse e2).raised⟩ : ScanResult)
       else ⟨okRecords parse ls1, [], true⟩) := by
  have hfile : ∀ ls : List String, (∀ l ∈ ls, (parse l).isOk = true) →
      get_crate_versions parse fname (ls ++ bad :: ls2) =
        (if parse bad = ParseResult.jsonError
         then (⟨okRecords parse ls, [LogEvent.errParse fname], false⟩ : ScanResult)
         else ⟨okRecords parse ls, [], true⟩) := by
    intro ls hls
    induction ls with
    | nil =>
        rcases hbad with hb | hb <;> simp [get_crate_versions, hb, okRecords]
    | cons a rest ih =>
        have ha : (parse a).isOk = true := hls a (by simp)
        cases hpa : parse a with
        | ok c =>
            have hrest := ih (fun l hl => hls l (by simp [hl]))
            by_cases hj : parse bad = ParseResult.jsonError <;>
              simp [get_crate_versions, hpa, hrest, okRecords, hj]
        | jsonError => rw [hpa] at ha; simp [ParseResult.isOk] at ha
        | recordError => rw [hpa] at ha; simp [ParseResult.isOk] at ha
  refine ⟨hfile ls1 h1, ?_⟩
  have hsort : sortByName [IndexEntry.file fname (ls1 ++ bad :: ls2), e2] =
      [IndexEntry.file fname (ls1 ++ bad :: ls2), e2] := by
    simp [sortByName, insertByName, h12]
  have gfile := hfile ls1 h1
  rw [get_crates_dir, hsort]
  simp only [List.map_cons, List.map_nil, List.foldr_cons, List.foldr_nil,
    hk1, hk2, if_true, scanSeq_empty, get_crates_file, gfile]
  by_cases hj : parse bad = ParseResult.jsonError <;> simp [hj, scanSeq]

theorem c1_index_read_failure_modes_witness :
    (∀ l ∈ ["good"], (parseStub l).isOk = true) ∧
    (parseStub "badjson" = ParseResult.jsonError ∨
      parseStub "badjson" = ParseResult.recordError) ∧
    keepEntry (IndexEntry.file "fo" (["good"] ++ "badjson" :: ["good"])) = true ∧
    keepEntry (IndexEntry.file "go" ["good"]) = true ∧
    nameLe (IndexEntry.file "fo" (["good"] ++ "badjson" :: ["good"]))
      (IndexEntry.file "go" ["good"]) = true ∧
    (get_crate_versions parseStub "fo" (["good"] ++ "badjson" :: ["good"]) =
        (if parseStub "badjson" = ParseResult.jsonError
         then (⟨okRecords parseStub ["good"], [LogEvent.errParse "fo"], false⟩ :
            ScanResult)
         else ⟨okRecords parseStub ["good"], [], true⟩) ∧
      get_crates parseStub (IndexEntry.dir "idx"
          [IndexEntry.file "fo" (["good"] ++ "badjson" :: ["good"]),
            IndexEntry.file "go" ["good"]]) =
        (if parseStub "badjson" = ParseResult.jsonError
         then (⟨okRecords parseStub ["good"] ++
                (get_crates parseStub (IndexEntry.file "go" ["good"])).records,
                [LogEvent.errParse "fo"] ++
                  (get_crates parseStub (IndexEntry.file "go" ["good"])).log,
                (get_crates parseStub (IndexEntry.file "go" ["good"])).raised⟩ :
            ScanResult)
         else ⟨okRecords parseStub ["good"], [], true⟩)) :=
  ⟨by decide, Or.inl rfl, rfl, rfl, rfl,
    c1_index_read_failure_modes parseStub "fo" "idx" ["good"] ["good"]
      "badjson" (IndexEntry.file "go" ["good"]) (by decide) (Or.inl rfl)
      rfl rfl rfl⟩

/-- Claim C2: when the canonical committed file already exists in the cache
with an on-disk digest equal to the record's checksum, download_crate returns
at once: the cache is unchanged in its entirety, only the skip message is
logged, and zero network requests are performed — for every network oracle,
since the fetch is never consulted. -/
theorem c2_up_to_date_skip (sha : Bytes → Bytes)
    (net : String → String → FetchResult) (fs : FS) (c : CrateVersion)
    (content : Bytes)
    (h1 : FS.lookup fs (canonName c) = some content)
    (h2 : sha content = c.cksum) :
    download_crate sha net fs c =
      ⟨fs, [LogEvent.debugSkip c.name c.vers], 0, false⟩ := by
  unfold download_crate
  rw [h1]
  simp [h2]

theorem c2_up_to_date_skip_witness :
    FS.lookup [("alpha-1.0.0.crate", [1, 2])] (canonName wA) = some [1, 2] ∧
    idSha [1, 2] = wA.cksum ∧
    download_crate idSha netConnFail [("alpha-1.0.0.crate", [1, 2])] wA =
      ⟨[("alpha-1.0.0.crate", [1, 2])], [LogEvent.debugSkip "alpha" "1.0.0"],
        0, false⟩ :=
  ⟨by decide, rfl,
    c2_up_to_date_skip idSha netConnFail [("alpha-1.0.0.crate", [1, 2])] wA
      [1, 2] (by decide) rfl⟩

/-- Claim C3: when the fetched payload's digest differs from the record's
checksum (and no valid committed file pre-empts the fetch), after
download_crate no file exists at the canonical path, the downloaded bytes
sit under the quarantine name — which differs from the canonical name — and
the mismatch is logged with both digests hex-encoded. -/
theorem c3_corrupt_quarantine (sha : Bytes → Bytes)
    (net : String → String → FetchResult) (fs : FS) (c : CrateVersion)
    (content : Bytes)
    (hnet : net c.name c.vers = FetchResult.success content)
    (hbad : sha content ≠ c.cksum)
    (hnoskip : validAt sha fs c = false) :
    FS.lookup (download_crate sha net fs c).fs (canonName c) = none ∧
    FS.lookup (download_crate sha net fs c).fs (corruptName c) = some content ∧
    corruptName c ≠ canonName c ∧
    LogEvent.warnCorrupt c.name c.vers (bytesToHex (sha content))
      (bytesToHex c.cksum) ∈ (download_crate sha net fs c).log := by
  have dct := canon_ne_tmp c c
  have dcc := canon_ne_corrupt c c
  have dtc := tmp_ne_corrupt c c
  refine ⟨?_, ?_, Ne.symm dcc, ?_⟩
  · rw [lookup_download]
    unfold validAt at hnoskip
    cases hc : FS.lookup fs (canonName c) with
    | none => simp [fetchLook, hnet, hbad, dcc, dct]
    | some c0 =>
        rw [hc] at hnoskip
        have : ¬ (sha c0 = c.cksum) := by simpa using hnoskip
        simp [fetchLook, hnet, hbad, this, dcc, dct]
  · rw [lookup_download]
    unfold validAt at hnoskip
    cases hc : FS.lookup fs (canonName c) with
    | none => simp [fetchLook, hnet, hbad]
    | some c0 =>
        rw [hc] at hnoskip
        have : ¬ (sha c0 = c.cksum) := by simpa using hnoskip
        simp [fetchLook, hnet, hbad, this]
  · unfold download_crate fetch_phase
    unfold validAt at hnoskip
    cases hc : FS.lookup fs (canonName c) with
    | none => simp [hnet, hbad]
    | some c0 =>
        rw [hc] at hnoskip
        have : ¬ (sha c0 = c.cksum) := by simpa using hnoskip
        simp [hnet, hbad, this]

theorem c3_corrupt_quarantine_witness :
    netBadPayload wA.name wA.vers = FetchResult.success [9] ∧
    idSha [9] ≠ wA.cksum ∧
    validAt idSha [] wA = false ∧
    (FS.lookup (download_crate idSha netBadPayload [] wA).fs (canonName wA)
        = none ∧
      FS.lookup (download_crate idSha netBadPayload [] wA).fs (corruptName wA)
        = some [9] ∧
      corruptName wA ≠ canonName wA ∧
      LogEvent.warnCorrupt wA.name wA.vers (bytesToHex (idSha [9]))
        (bytesToHex wA.cksum) ∈ (download_crate idSha netBadPayload [] wA).log) :=
  ⟨rfl, by decide, rfl,
    c3_corrupt_quarantine idSha netBadPayload [] wA [9] rfl (by decide) rfl⟩

/-- Claim C4, counterexample: a fetch that fails in mid-stream — after the
destination file has been opened and a first chunk written — leaves the
partial file at the temporary destination path: neither retrieve_and_hash
nor any handler deletes it.  This refutes the claim that no file remains at
the temporary destination path after a failed fetch. -/
theorem c4_counterexample :
    FS.lookup (download_crate idSha netMidStream [] wA).fs (tmpName wA) =
      some [7] := by decide

/-- Claim C4 as amended: when urlopen itself fails (connection error,
non-success status, timeout at connection time), download_crate catches the
URLError and logs it, nothing is created at the temporary destination path,
and both batch branches continue.  When the fetch fails in mid-stream, the
partial payload remains at the temporary path and the exception escapes
download_crate's URLError handler: the pool branch contains it in dl,
logging it as an unexpected error and continuing with the other records,
while the sequential branch aborts the remaining batch through its
undefined-name except clause, with nothing logged; a later completed
reconciliation pass removes whatever sits at the temporary path. -/
theorem c4_fetch_failure (sha : Bytes → Bytes)
    (net : String → String → FetchResult) (fs : FS) (c : CrateVersion)
    (p : Bytes) (parse : String → ParseResult) (root : IndexEntry)
    (rest : List CrateVersion)
    (hnoskip : validAt sha fs c = false)
    (hscan : (get_crates parse root).raised = false)
    (h : net c.name c.vers = FetchResult.connectFail ∨
         net c.name c.vers = FetchResult.midStreamFail p) :
    FS.lookup (download_crate sha net fs c).fs (tmpName c) =
      (if net c.name c.vers = FetchResult.midStreamFail p then some p
       else FS.lookup fs (tmpName c)) ∧
    (download_crate sha net fs c).raised =
      (if net c.name c.vers = FetchResult.midStreamFail p then true
       else false) ∧
    (if net c.name c.vers = FetchResult.midStreamFail p
     then LogEvent.errUnexpected ∈ (dl sha net fs c).2
     else LogEvent.errCannotDownload c.name c.vers ∈
       (download_crate sha net fs c).log) ∧
    runPool sha net fs (c :: rest) =
      runPool sha net (download_crate sha net fs c).fs rest ∧
    runSeq sha net fs (c :: rest) =
      (if (download_crate sha net fs c).raised
       then (download_crate sha net fs c).fs
       else runSeq sha net (download_crate sha net fs c).fs rest) ∧
    FS.lookup (cleanup parse root (download_crate sha net fs c).fs)
      (tmpName c) = none := by
  have dct := canon_ne_tmp c c
  have htmp : matchSuffix ".crate~" (tmpName c) = true := by
    rw [tmpName]
    exact matchSuffix_append ".crate~" (nvKey c)
  have hraised : (download_crate sha net fs c).raised =
      (if net c.name c.vers = FetchResult.midStreamFail p then true
       else false) := by
    unfold download_crate fetch_phase
    unfold validAt at hnoskip
    cases hc : FS.lookup fs (canonName c) with
    | none => rcases h with h | h <;> simp [h]
    | some c0 =>
        rw [hc] at hnoskip
        have : ¬ (sha c0 = c.cksum) := by simpa using hnoskip
        rcases h with h | h <;> simp [h, this]
  refine ⟨?_, hraised, ?_, rfl, runSeq_cons sha net fs c rest, ?_⟩
  · rw [lookup_download]
    unfold validAt at hnoskip
    cases hc : FS.lookup fs (canonName c) with
    | none =>
        rcases h with h | h <;>
          simp [fetchLook, h, Ne.symm dct]
    | some c0 =>
        rw [hc] at hnoskip
        have hnv : ¬ (sha c0 = c.cksum) := by simpa using hnoskip
        rcases h with h | h <;>
          simp [fetchLook, h, hnv, Ne.symm dct]
  · rcases h with h | h
    · rw [if_neg (by simp [h])]
      unfold download_crate fetch_phase
      unfold validAt at hnoskip
      cases hc : FS.lookup fs (canonName c) with
      | none => simp [h]
      | some c0 =>
          rw [hc] at hnoskip
          have : ¬ (sha c0 = c.cksum) := by simpa using hnoskip
          simp [h, this]
    · rw [if_pos h]
      unfold dl
      have : (download_crate sha net fs c).raised = true := by
        rw [hraised, if_pos h]
      simp [this]
  · rw [lookup_cleanup parse root _ _ hscan, htmp]
    simp

theorem c4_fetch_failure_witness :
    validAt idSha [] wA = false ∧
    (get_crates parseStub wRoot).raised = false ∧
    (netMidStream wA.name wA.vers = FetchResult.connectFail ∨
      netMidStream wA.name wA.vers = FetchResult.midStreamFail [7]) ∧
    (FS.lookup (download_crate idSha netMidStream [] wA).fs (tmpName wA) =
        (if netMidStream wA.name wA.vers = FetchResult.midStreamFail [7]
         then some [7] else FS.lookup [] (tmpName wA)) ∧
      (download_crate idSha netMidStream [] wA).raised =
        (if netMidStream wA.name wA.vers = FetchResult.midStreamFail [7]
         then true else false) ∧
      (if netMidStream wA.name wA.vers = FetchResult.midStreamFail [7]
       then LogEvent.errUnexpected ∈ (dl idSha netMidStream [] wA).2
       else LogEvent.errCannotDownload wA.name wA.vers ∈
         (download_crate idSha netMidStream [] wA).log) ∧
      runPool idSha netMidStream [] ([wA] ++ [wB]) =
        runPool idSha netMidStream
          ((download_crate idSha netMidStream [] wA).fs) [wB] ∧
      runSeq idSha netMidStream [] ([wA] ++ [wB]) =
        (if (download_crate idSha netMidStream [] wA).raised
         then (download_crate idSha netMidStream [] wA).fs
         else runSeq idSha netMidStream
           ((download_crate idSha netMidStream [] wA).fs) [wB]) ∧
      FS.lookup (cleanup parseStub wRoot
          (download_crate idSha netMidStream [] wA).fs) (tmpName wA) = none) :=
  ⟨rfl, by rw [wRoot_scan], Or.inr rfl,
    c4_fetch_failure idSha netMidStream [] wA [7] parseStub wRoot [wB]
      rfl (by rw [wRoot_scan]) (Or.inr rfl)⟩

/-- Claim C5, counterexample: the pool-1/pool-N equivalence fails.  Over the
same starting state and the same per-record fetch outcomes — alpha's fetch
fails in mid-stream, beta's succeeds with a matching digest — the size-1
run (the sequential loop, processing in index order) aborts at alpha
through the undefined-name except clause and never processes beta, whose
canonical file therefore does not exist, while the pool run contains
alpha's exception in dl, continues, and commits beta's file: the final
cache contents differ. -/
theorem c5_counterexample :
    FS.lookup (runSeq idSha netC5 [] [wA, wB]) (canonName wB) = none ∧
    FS.lookup (runPool idSha netC5 [] [wA, wB]) (canonName wB) = some [3] := by
  refine ⟨by decide, by decide⟩

/-- Claim C5 as amended: provided no record of the batch has a mid-stream
fetch failure — the one outcome whose exception escapes download_crate and
aborts the sequential branch — and distinct records have distinct canonical
filenames (the (name, version) uniqueness of an index snapshot), running
the batch with pool size 1 (the sequential loop, in index order) and with a
pool of size N>1 (each record processed once by one worker, in an arbitrary
completion order) yields identical final cache contents. -/
theorem c5_pool_equiv_without_midstream (sha : Bytes → Bytes)
    (net : String → String → FetchResult) (fs : FS)
    (crates crates' : List CrateVersion) (m : String)
    (hperm : crates.Perm crates')
    (hnd : (crates.map canonName).Nodup)
    (hnomid : ∀ c ∈ crates, ∀ p,
      net c.name c.vers ≠ FetchResult.midStreamFail p) :
    FS.lookup (runSeq sha net fs crates) m =
      FS.lookup (runPool sha net fs crates') m := by
  rw [runSeq_eq_runPool sha net crates fs hnomid]
  exact runPool_perm sha net hperm hnd fs m

theorem c5_pool_equiv_without_midstream_witness :
    List.Perm [wA, wB] [wB, wA] ∧
    (([wA, wB].map canonName).Nodup) ∧
    (∀ c ∈ [wA, wB], ∀ p,
      netBadPayload c.name c.vers ≠ FetchResult.midStreamFail p) ∧
    FS.lookup (runSeq idSha netBadPayload [] [wA, wB]) (corruptName wA) =
      FS.lookup (runPool idSha netBadPayload [] [wB, wA]) (corruptName wA) :=
  ⟨List.Perm.swap wB wA [], by decide,
    fun c _ p hcontra => FetchResult.noConfusion hcontra,
    c5_pool_equiv_without_midstream idSha netBadPayload [] [wA, wB] [wB, wA]
      (corruptName wA) (List.Perm.swap wB wA []) (by decide)
      (fun c _ p hcontra => FetchResult.noConfusion hcontra)⟩

/-- Claim C6: reconciliation is idempotent — a second cleanup over the same
index snapshot, with no intervening sync, deletes nothing: it returns the
cache directory unchanged, entry for entry. -/
theorem c6_cleanup_idempotent (parse : String → ParseResult)
    (root : IndexEntry) (fs : FS) :
    cleanup parse root (cleanup parse root fs) = cleanup parse root fs := by
  unfold cleanup
  by_cases h : (get_crates parse root).raised = true
  · simp [h]
  · simp [h, cleanup_files_idem]

/-- Claim C7: after one reconciliation pass — one whose index scan
completes, rather than crashing on an uncaught record error before any
deletion — a file matching the partial or the quarantine naming convention
is gone regardless of the index, a committed-named file whose name is
missing from the canonical filenames of the current index records is gone,
and every other file — in particular a committed file whose name is in
that set — is untouched. -/
theorem c7_reconcile_outcome (parse : String → ParseResult)
    (root : IndexEntry) (fs : FS) (n : String)
    (hscan : (get_crates parse root).raised = false) :
    FS.lookup (cleanup parse root fs) n =
      if matchSuffix ".crate~" n || matchSuffix ".crate~corrupted" n then none
      else if matchSuffix ".crate" n
          && !((expectedNames parse root).contains n) then none
      else FS.lookup fs n :=
  lookup_cleanup parse root fs n hscan

theorem c7_reconcile_outcome_witness :
    (get_crates parseStub wRoot).raised = false ∧
    FS.lookup (cleanup parseStub wRoot [("x.crate~", [1])]) "x.crate~" =
      (if matchSuffix ".crate~" "x.crate~"
          || matchSuffix ".crate~corrupted" "x.crate~" then none
       else if matchSuffix ".crate" "x.crate~"
          && !((expectedNames parseStub wRoot).contains "x.crate~") then none
       else FS.lookup [("x.crate~", [1])] "x.crate~") :=
  ⟨by rw [wRoot_scan],
    c7_reconcile_outcome parseStub wRoot [("x.crate~", [1])] "x.crate~"
      (by rw [wRoot_scan])⟩

/-- Claim C8, counterexample: with the index root missing, the update
command logs an error and aborts before any network access or cache
mutation, but the process then exits with status 0 — update returns None
instead of raising, and main never inspects the outcome nor calls
sys.exit — refuting the claimed non-zero exit status. -/
theorem c8_counterexample :
    update_cmd idSha netConnFail parseStub IndexState.missing [] =
      ([], [LogEvent.errNoIndex]) ∧
    update_exit_status idSha netConnFail parseStub IndexState.missing [] = 0 :=
  ⟨rfl, rfl⟩

/-- Claim C8 as amended: if the index root is missing, the synchronization
pass aborts before any network access (the result does not depend on the
network oracle) and before any cache mutation, logging the error — but the
command exits with status zero, not non-zero. -/
theorem c8_missing_index_aborts_exit_zero (sha : Bytes → Bytes)
    (net net' : String → String → FetchResult)
    (parse : String → ParseResult) (fs : FS) :
    update_cmd sha net parse IndexState.missing fs =
      (fs, [LogEvent.errNoIndex]) ∧
    update_cmd sha net parse IndexState.missing fs =
      update_cmd sha net' parse IndexState.missing fs ∧
    update_exit_status sha net parse IndexState.missing fs = 0 :=
  ⟨rfl, rfl, rfl⟩

theorem download_crate_yanked (sha : Bytes → Bytes)
    (net : String → String → FetchResult) (fs : FS) {c c' : CrateVersion}
    (h : yankedVariant c c') :
    download_crate sha net fs c = download_crate sha net fs c' := by
  obtain ⟨n, v, y, k⟩ := c
  obtain ⟨n', v', y', k'⟩ := c'
  obtain ⟨hn, hv, hk⟩ := h
  dsimp at hn hv hk
  subst hn; subst hv; subst hk
  rfl

theorem expected_yanked {l l' : List CrateVersion}
    (hl : List.Forall₂ yankedVariant l l') :
    l.map canonName = l'.map canonName := by
  induction hl with
  | nil => rfl
  | cons h _ ih =>
      simp only [List.map_cons, ih]
      congr 1
      rw [canonName, canonName, nvKey, nvKey, h.1, h.2.1]

theorem runSeq_yanked (sha : Bytes → Bytes)
    (net : String → String → FetchResult) {l l' : List CrateVersion}
    (hl : List.Forall₂ yankedVariant l l') (fs : FS) :
    runSeq sha net fs l = runSeq sha net fs l' := by
  induction hl generalizing fs with
  | nil => rfl
  | @cons a b l1 l2 h _ ih =>
      rw [runSeq_cons, runSeq_cons, download_crate_yanked sha net fs h]
      by_cases hr : (download_crate sha net fs b).raised = true
      · rw [if_pos hr, if_pos hr]
      · rw [if_neg hr, if_neg hr]
        exact ih _

/-- Claim C9: the yanked flag has no behavioral effect — flipping it changes
neither how download_crate processes the record, nor the outcome of a whole
synchronization batch, nor the set of canonical filenames reconciliation
treats as expected. -/
theorem c9_yanked_no_effect (sha : Bytes → Bytes)
    (net : String → String → FetchResult) (fs : FS) (c c' : CrateVersion)
    (crates crates' : List CrateVersion)
    (h : yankedVariant c c')
    (hl : List.Forall₂ yankedVariant crates crates') :
    download_crate sha net fs c = download_crate sha net fs c' ∧
    runSeq sha net fs crates = runSeq sha net fs crates' ∧
    cleanup_files (crates.map canonName) fs =
      cleanup_files (crates'.map canonName) fs := by
  refine ⟨download_crate_yanked sha net fs h, runSeq_yanked sha net hl fs, ?_⟩
  rw [expected_yanked hl]

theorem c9_yanked_no_effect_witness :
    yankedVariant wA wAyank ∧
    List.Forall₂ yankedVariant [wA] [wAyank] ∧
    (download_crate idSha netBadPayload [("alpha-1.0.0.crate", [9])] wA =
        download_crate idSha netBadPayload [("alpha-1.0.0.crate", [9])] wAyank ∧
      runSeq idSha netBadPayload [("alpha-1.0.0.crate", [9])] [wA] =
        runSeq idSha netBadPayload [("alpha-1.0.0.crate", [9])] [wAyank] ∧
      cleanup_files ([wA].map canonName) [("alpha-1.0.0.crate", [9])] =
        cleanup_files ([wAyank].map canonName) [("alpha-1.0.0.crate", [9])]) :=
  ⟨⟨rfl, rfl, rfl⟩, List.Forall₂.cons ⟨rfl, rfl, rfl⟩ List.Forall₂.nil,
    c9_yanked_no_effect idSha netBadPayload [("alpha-1.0.0.crate", [9])]
      wA wAyank [wA] [wAyank] ⟨rfl, rfl, rfl⟩
      (List.Forall₂.cons ⟨rfl, rfl, rfl⟩ List.Forall₂.nil)⟩

/-- Claim C10: when the canonical file exists with a digest different from
the record's checksum, download_crate deletes it before fetching; hence if
the fetch then fails — connection failure or mid-stream failure — no file
exists at the canonical path afterwards: the stale artifact is lost for
this pass rather than retained. -/
theorem c10_stale_removed_before_refetch (sha : Bytes → Bytes)
    (net : String → String → FetchResult) (fs : FS) (c : CrateVersion)
    (old p : Bytes)
    (h1 : FS.lookup fs (canonName c) = some old)
    (h2 : sha old ≠ c.cksum)
    (h3 : net c.name c.vers = FetchResult.connectFail ∨
          net c.name c.vers = FetchResult.midStreamFail p) :
    FS.lookup (download_crate sha net fs c).fs (canonName c) = none := by
  have dct := canon_ne_tmp c c
  rw [lookup_download, h1]
  rcases h3 with h3 | h3 <;> simp [fetchLook, h2, h3, dct]

theorem c10_stale_removed_before_refetch_witness :
    FS.lookup [("alpha-1.0.0.crate", [9])] (canonName wA) = some [9] ∧
    idSha [9] ≠ wA.cksum ∧
    (netConnFail wA.name wA.vers = FetchResult.connectFail ∨
      netConnFail wA.name wA.vers = FetchResult.midStreamFail [7]) ∧
    FS.lookup
      (download_crate idSha netConnFail [("alpha-1.0.0.crate", [9])] wA).fs
      (canonName wA) = none :=
  ⟨by decide, by decide, Or.inl rfl,
    c10_stale_removed_before_refetch idSha netConnFail
      [("alpha-1.0.0.crate", [9])] wA [9] [7] (by decide) (by decide)
      (Or.inl rfl)⟩

end CargoMirror
